import Mathlib

/-!
# Verification of the `rusty_buckets` hash table against its specification

This file gives a shallow embedding of the Rust sources of `rusty_buckets`
(`src/lib.rs`, the complete table with delete/shrink, and `src/hash3.rs` /
`src/hash2.rs`, the pointer-linked variants) and settles the frozen claims
about them.

Modelling conventions:
* `usize` is 64-bit (the bit masks in `lib.rs` are hard-coded for W = 64);
  machine integers are `Nat` with explicit `% 2 ^ 64` where wrap-around can
  occur (`wrapping_mul` in `hash`).
* `x >> s` is `x / 2 ^ s`, `x & mask` is `x &&& mask`, `|` is `|||`,
  `^` is `^^^`.
* The bucket array `Vec<Bucket<T>>` is a `List (Bucket T)` whose length is
  the vector's `len`.  The Rust code accesses buckets through unchecked raw
  pointers (`buckets.as_mut_ptr().add(i)`); an access with `i ≥ len` is out
  of bounds (undefined behaviour).  Accordingly every operation returns an
  `Option`: `none` means the execution performed an out-of-bounds access or
  failed to terminate (modelled by running out of fuel, where the fuel is
  always at least the number of buckets plus one, enough for any walk over
  a well-formed ring).
* Loops become fuel-indexed recursive functions; reads and writes are
  performed in exactly the order of the source, which matters because the
  source patches buckets through aliased pointers mid-loop.
* `count -= 1` / `shift -= 1` become truncated `Nat` subtraction; in every
  execution examined here the Rust values are positive, so release-mode
  wrap-around never differs from this model.
* The value type is a parameter `T` (the Rust code is generic); `Inhabited T`
  supplies `T::default()`.  The benchmarks in `main.rs` instantiate
  `T = usize`, so `BUCKET_SIZE = size_of::<Bucket<usize>>() = 24`.
-/

set_option autoImplicit false

namespace RustyBuckets

/-- lib.rs line 3: `HEAD_BIT_MASK` is `1 << 63`. -/
def HEAD_BIT_MASK : Nat := 9223372036854775808

/-- lib.rs line 4: `EMPTY_BIT_MASK` is `1 << 62`. -/
def EMPTY_BIT_MASK : Nat := 4611686018427387904

/-- lib.rs line 5: `PROBE_BITS_MASK` is `(1 << 62) - 1`. -/
def PROBE_BITS_MASK : Nat := 4611686018427387903

/-- lib.rs line 6: `USIZE_BITS`, the platform word width; 64 here. -/
def USIZE_BITS : Nat := 64

/-- Modulus of 64-bit wrap-around arithmetic. -/
def U64_MOD : Nat := 18446744073709551616

/-- lib.rs lines 23-26: `hash(key, shift) = key.wrapping_mul(2654435769) >> shift`.
The multiplier written in the source is `2654435769` (the 32-bit Fibonacci
constant), even though the platform word is 64 bits. -/
def hash (key shift : Nat) : Nat := key * 2654435769 % U64_MOD / 2 ^ shift

/-- hash3.rs lines 20-26 (same in hash2.rs): `HASH_MULTIPLIER`, selected by
word width; on the 64-bit platform it is `11400714819323198486`. -/
def HASH_MULTIPLIER : Nat := 11400714819323198486

/-- The hash of hash3.rs line 113 / hash2.rs line 29:
`key.wrapping_mul(HASH_MULTIPLIER) >> shift`. -/
def hash64 (key shift : Nat) : Nat := key * HASH_MULTIPLIER % U64_MOD / 2 ^ shift

/-- lib.rs lines 30-32: grow trigger `count >= capacity - (capacity >> 4)`. -/
def should_grow (count capacity : Nat) : Bool :=
  decide (capacity - capacity / 16 ≤ count)

/-- lib.rs lines 36-38: shrink trigger `count <= (capacity >> 2) + (capacity >> 3)`. -/
def should_shrink (count capacity : Nat) : Bool :=
  decide (count ≤ capacity / 4 + capacity / 8)

/-- Rust `usize::is_power_of_two` (count_ones() == 1). -/
def is_power_of_two (n : Nat) : Bool :=
  decide (n ≠ 0) && decide (n &&& (n - 1) = 0)

/-- Bit length of a word: `USIZE_BITS - n.leading_zeros()`.  Fuel-indexed
auxiliary; 64 units of fuel are exact for `n < 2 ^ 64`. -/
def bitLenAux : Nat → Nat → Nat
  | 0, _ => 0
  | fuel + 1, n => if n = 0 then 0 else bitLenAux fuel (n / 2) + 1

/-- Bit length of a `usize` value. -/
def bitLen (n : Nat) : Nat := bitLenAux USIZE_BITS n

/-- lib.rs line 50-53: a bucket packs a status/link word, the key and the value. -/
structure Bucket (T : Type) where
  meta : Nat
  key : Nat
  value : T
  deriving DecidableEq

/-- lib.rs lines 55-66: `Bucket::default()` is EMPTY with key 0 and `T::default()`. -/
instance bucketInhabited (T : Type) [Inhabited T] : Inhabited (Bucket T) :=
  ⟨{ meta := EMPTY_BIT_MASK, key := 0, value := default }⟩

/-- lib.rs lines 68-77: the table. -/
structure HashTable (T : Type) where
  count : Nat
  shift : Nat
  mask : Nat
  buckets : List (Bucket T)
  deriving DecidableEq

variable {T : Type}

/-- lib.rs lines 102-104: `capacity()` is `buckets.len()`. -/
def HashTable.capacity (t : HashTable T) : Nat := t.buckets.length

/-- lib.rs line 83: `BUCKET_SIZE = size_of::<Bucket<T>>()`, which is 24 for the
`T = usize` instantiation used by `main.rs`. -/
def BUCKET_SIZE : Nat := 24

/-- lib.rs line 84: `MIN_BITS = 1`. -/
def MIN_BITS : Nat := 1

/-- lib.rs lines 85-86: `MAX_BITS = USIZE_BITS - (usize::MAX / BUCKET_SIZE).leading_zeros()`. -/
def MAX_BITS : Nat := bitLen ((U64_MOD - 1) / BUCKET_SIZE)

/-- lib.rs line 87: `MIN_CAPACITY = 1 << MIN_BITS`. -/
def MIN_CAPACITY : Nat := 2 ^ MIN_BITS

/-- lib.rs line 88: `MAX_CAPACITY = 1 << MAX_BITS`. -/
def MAX_CAPACITY : Nat := 2 ^ MAX_BITS

/-- lib.rs lines 106-117: `with_capacity`.
`bits = (USIZE_BITS - initial_capacity.leading_zeros()).min(MAX_BITS).max(MIN_BITS)`,
the capacity is `1 << bits`, the shift `USIZE_BITS - bits`, the mask
`capacity - 1`, and the array holds `capacity` default buckets. -/
def with_capacity [Inhabited T] (initial_capacity : Nat) : HashTable T :=
  let bits := max (min (bitLen initial_capacity) MAX_BITS) MIN_BITS
  let capacity := 2 ^ bits
  { count := 0
    shift := USIZE_BITS - bits
    mask := capacity - 1
    buckets := List.replicate capacity default }

/-- Checked write to the bucket array: the Rust code writes through
`buckets.as_mut_ptr().add(i)`, which is out of bounds when `i ≥ len`. -/
def setB (bs : List (Bucket T)) (i : Nat) (b : Bucket T) : Option (List (Bucket T)) :=
  if i < bs.length then some (bs.set i b) else none

/-- lib.rs lines 127-136: the chain walk inside `get`.  State: `cur` is the
index of the bucket under inspection, `n` the raw `meta` word read one step
earlier (with the HEAD bit already cleared at entry). -/
def getLoop (bs : List (Bucket T)) (key h : Nat) : Nat → Nat → Nat → Option (Option T)
  | _, _, 0 => none
  | cur, n, fuel + 1 =>
    match bs[cur]? with
    | none => none
    | some b =>
      if b.key = key then some (some b.value)
      else if n = h then some none
      else
        match bs[n]? with
        | none => none
        | some b2 => getLoop bs key h n b2.meta fuel

/-- lib.rs lines 119-140: `get`.  Returns `some (some v)` when found,
`some none` when the code returns `None`, and `none` when the code performs
an out-of-bounds access or loops forever. -/
def get (t : HashTable T) (key : Nat) : Option (Option T) :=
  let h := hash key t.shift
  match t.buckets[h]? with
  | none => none
  | some b0 =>
    if b0.meta &&& HEAD_BIT_MASK ≠ 0 then
      getLoop t.buckets key h h (b0.meta ^^^ HEAD_BIT_MASK) (t.buckets.length + 1)
    else some none

/-- lib.rs lines 158-170: the chain walk of the HEAD case of `emplace`.
Returns `Sum.inl j` when bucket `j` holds `key` (overwrite), `Sum.inr i`
when the walk reached the tail at index `i`. -/
def walkChain (bs : List (Bucket T)) (key h : Nat) : Nat → Nat → Nat → Option (Nat ⊕ Nat)
  | _, _, 0 => none
  | cur, n, fuel + 1 =>
    match bs[cur]? with
    | none => none
    | some b =>
      if b.key = key then some (Sum.inl cur)
      else if n = h then some (Sum.inr cur)
      else
        match bs[n]? with
        | none => none
        | some b2 => walkChain bs key h n b2.meta fuel

/-- lib.rs lines 171-186 and 196-216: the probe loop
`n = 1; while n < capacity { i += n; i &= mask; if buckets[i] is EMPTY {..} }`.
`fuel` counts the remaining loop iterations (`capacity - n` at entry).
`some (some e)` means an EMPTY bucket was found at `e`; `some none` means
the loop exhausted without finding one (the entry is then silently not
written); `none` means an out-of-bounds read. -/
def probeLoop (bs : List (Bucket T)) (mask : Nat) : Nat → Nat → Nat → Option (Option Nat)
  | _, _, 0 => some none
  | i, n, fuel + 1 =>
    let i2 := (i + n) &&& mask
    match bs[i2]? with
    | none => none
    | some b =>
      if b.meta &&& EMPTY_BIT_MASK ≠ 0 then some (some i2)
      else probeLoop bs mask i2 (n + 1) fuel

/-- lib.rs lines 188-194: the predecessor search of the displacement case:
`loop { i = n; n = buckets[i].meta & PROBE_BITS_MASK; if n == h { break } }`;
returns the index `i` whose probe link equals `h`. -/
def findPrev (bs : List (Bucket T)) (h : Nat) : Nat → Nat → Option Nat
  | _, 0 => none
  | n, fuel + 1 =>
    match bs[n]? with
    | none => none
    | some b =>
      let n2 := b.meta &&& PROBE_BITS_MASK
      if n2 = h then some n else findPrev bs h n2 fuel

/-- lib.rs lines 142-220: `emplace`.  Returns the replaced value (if the key
was present) together with the updated table. -/
def emplace (t : HashTable T) (key : Nat) (value : T) : Option (Option T × HashTable T) :=
  let h := hash key t.shift
  match t.buckets[h]? with
  | none => none
  | some b0 =>
    if b0.meta &&& EMPTY_BIT_MASK ≠ 0 then
      -- lines 149-154: empty home, write a fresh head ring
      match setB t.buckets h { meta := HEAD_BIT_MASK ||| h, key := key, value := value } with
      | none => none
      | some bs => some (none, { t with buckets := bs })
    else if b0.meta &&& HEAD_BIT_MASK ≠ 0 then
      -- lines 155-186: walk the chain, overwrite on key match, else append
      match walkChain t.buckets key h h (b0.meta ^^^ HEAD_BIT_MASK) (t.buckets.length + 1) with
      | none => none
      | some (Sum.inl j) =>
        match t.buckets[j]? with
        | none => none
        | some bj =>
          match setB t.buckets j { bj with value := value } with
          | none => none
          | some bs => some (some bj.value, { t with buckets := bs })
      | some (Sum.inr tail) =>
        match probeLoop t.buckets t.mask tail 1 (t.buckets.length - 1) with
        | none => none
        | some none => some (none, t)
        | some (some e) =>
          match t.buckets[tail]? with
          | none => none
          | some bt =>
            match setB t.buckets tail { bt with meta := bt.meta &&& HEAD_BIT_MASK ||| e } with
            | none => none
            | some bs1 =>
              match setB bs1 e { meta := h, key := key, value := value } with
              | none => none
              | some bs2 => some (none, { t with buckets := bs2 })
    else
      -- lines 187-217: displacement of a squatting chain member
      match findPrev t.buckets h b0.meta (t.buckets.length + 1) with
      | none => none
      | some p =>
        match probeLoop t.buckets t.mask p 1 (t.buckets.length - 1) with
        | none => none
        | some none => some (none, t)
        | some (some e) =>
          match t.buckets[p]? with
          | none => none
          | some bp =>
            -- line 205: patch the predecessor link first (it may alias h)
            match setB t.buckets p { bp with meta := bp.meta &&& HEAD_BIT_MASK ||| e } with
            | none => none
            | some bs1 =>
              -- lines 208-212: move the squatter to e, new head at h
              match bs1[h]? with
              | none => none
              | some bh =>
                match setB bs1 e bh with
                | none => none
                | some bs2 =>
                  match setB bs2 h { meta := HEAD_BIT_MASK ||| h, key := key, value := value } with
                  | none => none
                  | some bs3 => some (none, { t with buckets := bs3 })

/-- lib.rs lines 246-256: the traversal of `delete`.  State mirrors the
source: `last` is the current bucket index, `meta` the raw word read one
step earlier (HEAD bit cleared at entry), `erase` the last index whose key
matched, `prev` the index of the previous bucket (`null` at entry). -/
def deleteLoop (bs : List (Bucket T)) (key h : Nat) :
    Nat → Nat → Option Nat → Option Nat → Nat → Option (Option Nat × Nat × Option Nat)
  | _, _, _, _, 0 => none
  | last, meta, erase, prev, fuel + 1 =>
    match bs[last]? with
    | none => none
    | some b =>
      let erase2 := if b.key = key then some last else erase
      if meta = h then some (erase2, last, prev)
      else
        match bs[meta]? with
        | none => none
        | some b2 => deleteLoop bs key h meta b2.meta erase2 (some last) fuel

/-- lib.rs lines 369-382: `shrink` (declared before `delete` here because
`delete` calls it).  Halves the capacity: updates mask and shift first,
rehashes every index in `[1, old_capacity)` ascending, then truncates. -/
def shrinkLoop (rehash : HashTable T → Nat → Option (HashTable T)) :
    HashTable T → Nat → Nat → Option (HashTable T)
  | t, _, 0 => some t
  | t, i, fuel + 1 =>
    match rehash t i with
    | none => none
    | some t1 => shrinkLoop rehash t1 (i + 1) fuel

/-- lib.rs lines 279-296: the dismantling loop of `rehash_non_zero`:
re-emplace the head entry, then pull the next ring member into `h`,
until the ring closes; finally mark `h` EMPTY. -/
def rehashLoop (h : Nat) : HashTable T → Nat → Option (HashTable T)
  | _, 0 => none
  | t, fuel + 1 =>
    match t.buckets[h]? with
    | none => none
    | some bh =>
      match emplace t bh.key bh.value with
      | none => none
      | some (_, t1) =>
        match t1.buckets[h]? with
        | none => none
        | some bh1 =>
          let n := bh1.meta ^^^ HEAD_BIT_MASK
          if n = h then
            match setB t1.buckets h { bh1 with meta := EMPTY_BIT_MASK } with
            | none => none
            | some bs => some { t1 with buckets := bs }
          else
            match t1.buckets[n]? with
            | none => none
            | some bn =>
              match setB t1.buckets h bn with
              | none => none
              | some bs1 =>
                match bs1[n]? with
                | none => none
                | some bn2 =>
                  match setB bs1 n { bn2 with meta := EMPTY_BIT_MASK } with
                  | none => none
                  | some bs2 =>
                    match bs2[h]? with
                    | none => none
                    | some bh3 =>
                      match setB bs2 h { bh3 with meta := bh3.meta ||| HEAD_BIT_MASK } with
                      | none => none
                      | some bs3 => rehashLoop h { t1 with buckets := bs3 } fuel

/-- lib.rs lines 273-301: `rehash_non_zero(h)`: no-op unless bucket `h` has
the HEAD bit set; otherwise dismantle the chain rooted at `h`. -/
def rehash_non_zero (t : HashTable T) (h : Nat) : Option (HashTable T) :=
  match t.buckets[h]? with
  | none => none
  | some bh =>
    if bh.meta &&& HEAD_BIT_MASK ≠ 0 then rehashLoop h t (t.buckets.length + 1)
    else some t

/-- lib.rs lines 307-326: the `while i != 0` loop of `rehash_zero`.  `p` is
the index of the last ring member whose key still hashes to 0, `i` the
member under inspection. -/
def rehashZeroLoop : HashTable T → Nat → Nat → Nat → Option (HashTable T)
  | _, _, _, 0 => none
  | t, p, i, fuel + 1 =>
    if i = 0 then some t
    else
      match t.buckets[i]? with
      | none => none
      | some bi =>
        let n := bi.meta &&& PROBE_BITS_MASK
        let h2 := hash bi.key t.shift
        if h2 ≠ 0 then
          match t.buckets[p]? with
          | none => none
          | some bp =>
            match setB t.buckets p { bp with meta := bp.meta &&& HEAD_BIT_MASK ||| n } with
            | none => none
            | some bs1 =>
              match bs1[i]? with
              | none => none
              | some bi1 =>
                match setB bs1 i { bi1 with meta := EMPTY_BIT_MASK } with
                | none => none
                | some bs2 =>
                  match bs2[i]? with
                  | none => none
                  | some bi2 =>
                    match emplace { t with buckets := bs2 } bi2.key bi2.value with
                    | none => none
                    | some (_, t1) =>
                      if h2 = n then
                        match t1.buckets[p]? with
                        | none => none
                        | some bp2 =>
                          rehashZeroLoop t1 p (bp2.meta &&& PROBE_BITS_MASK) fuel
                      else rehashZeroLoop t1 p n fuel
        else rehashZeroLoop t i n fuel

/-- lib.rs lines 303-346: `rehash_zero`: walk the ring rooted at 0, unlink
and re-emplace every member whose new hash is nonzero, then handle the
residual member left at index 0. -/
def rehash_zero (t : HashTable T) : Option (HashTable T) :=
  match t.buckets[0]? with
  | none => none
  | some b0 =>
    if b0.meta &&& HEAD_BIT_MASK ≠ 0 then
      match rehashZeroLoop t 0 (b0.meta &&& PROBE_BITS_MASK) (t.buckets.length + 1) with
      | none => none
      | some t1 =>
        match t1.buckets[0]? with
        | none => none
        | some bi =>
          let h2 := hash bi.key t1.shift
          if h2 ≠ 0 then
            let n := bi.meta &&& PROBE_BITS_MASK
            if n ≠ 0 then
              -- lines 330-337: swap buckets 0 and n, restore flags, re-emplace
              match t1.buckets[n]? with
              | none => none
              | some bn =>
                match setB t1.buckets 0 bn with
                | none => none
                | some bs1 =>
                  match setB bs1 n bi with
                  | none => none
                  | some bs2 =>
                    match bs2[0]? with
                    | none => none
                    | some b02 =>
                      match setB bs2 0 { b02 with meta := b02.meta ||| HEAD_BIT_MASK } with
                      | none => none
                      | some bs3 =>
                        match bs3[n]? with
                        | none => none
                        | some bn2 =>
                          match setB bs3 n { bn2 with meta := EMPTY_BIT_MASK } with
                          | none => none
                          | some bs4 =>
                            match bs4[n]? with
                            | none => none
                            | some bn3 =>
                              match emplace { t1 with buckets := bs4 } bn3.key bn3.value with
                              | none => none
                              | some (_, t2) => some t2
            else
              -- lines 338-342: index 0 is the last remaining member
              match setB t1.buckets 0 { bi with meta := EMPTY_BIT_MASK } with
              | none => none
              | some bs1 =>
                match bs1[0]? with
                | none => none
                | some b03 =>
                  match emplace { t1 with buckets := bs1 } b03.key b03.value with
                  | none => none
                  | some (_, t2) => some t2
          else some t1
    else some t

/-- lib.rs lines 357-361 inner loop: `while min < max { rehash_non_zero(min); min += 1 }`.
`fuel = max - min` at entry. -/
def growInner : HashTable T → Nat → Nat → Nat → Option (HashTable T)
  | t, _, _, 0 => some t
  | t, mn, mx, fuel + 1 =>
    if mn < mx then
      match rehash_non_zero t mn with
      | none => none
      | some t1 => growInner t1 (mn + 1) mx fuel
    else some t

/-- lib.rs lines 355-364 outer loop: shells `[max/2, max)` for
`max = old_capacity, old_capacity/2, …`; 64 units of fuel cover any word-sized
capacity. -/
def growShells : HashTable T → Nat → Nat → Option (HashTable T)
  | _, _, 0 => none
  | t, mx, fuel + 1 =>
    let mn := mx / 2
    if 0 < mn then
      match growInner t mn mx (mx - mn) with
      | none => none
      | some t1 => growShells t1 mn fuel
    else some t

/-- lib.rs lines 348-367: `grow`.  Doubles the array with default (EMPTY)
buckets, updates mask and shift, rehashes the shells in descending order,
then handles index 0. -/
def grow [Inhabited T] (t : HashTable T) : Option (HashTable T) :=
  let old_capacity := t.capacity
  let new_capacity := old_capacity * 2
  if is_power_of_two new_capacity && decide (new_capacity ≤ MAX_CAPACITY) then
    let bs := t.buckets ++ List.replicate (new_capacity - t.buckets.length) default
    let t1 : HashTable T :=
      { t with buckets := bs, mask := bs.length - 1, shift := t.shift - 1 }
    match growShells t1 old_capacity USIZE_BITS with
    | none => none
    | some t2 => rehash_zero t2
  else some t

/-- lib.rs lines 369-382: `shrink`. -/
def shrink (t : HashTable T) : Option (HashTable T) :=
  let old_capacity := t.capacity
  let new_capacity := old_capacity / 2
  if is_power_of_two new_capacity && decide (MIN_CAPACITY ≤ new_capacity) then
    let t1 : HashTable T := { t with mask := new_capacity - 1, shift := t.shift + 1 }
    match shrinkLoop rehash_non_zero t1 1 (old_capacity - 1) with
    | none => none
    | some t2 => some { t2 with buckets := t2.buckets.take new_capacity }
  else some t

/-- lib.rs lines 222-233: `insert`.  Grows first when the load trigger fires,
then emplaces; `count` is incremented exactly when `emplace` returned `None`. -/
def insert [Inhabited T] (t : HashTable T) (key : Nat) (value : T) :
    Option (Option T × HashTable T) :=
  match (if should_grow t.count t.capacity then grow t else some t) with
  | none => none
  | some t1 =>
    match emplace t1 key value with
    | none => none
    | some (some x, t2) => some (some x, t2)
    | some (none, t2) => some (none, { t2 with count := t2.count + 1 })

/-- lib.rs lines 235-271: `delete`.  On a key match: splice the tail entry
into the erased slot, unlink the tail, decrement the count and possibly
shrink. -/
def delete (t : HashTable T) (key : Nat) : Option (HashTable T) :=
  let h := hash key t.shift
  match t.buckets[h]? with
  | none => none
  | some b0 =>
    if b0.meta &&& HEAD_BIT_MASK ≠ 0 then
      match deleteLoop t.buckets key h h (b0.meta ^^^ HEAD_BIT_MASK) none none
          (t.buckets.length + 1) with
      | none => none
      | some (none, _, _) => some t
      | some (some e, last, prev) =>
        -- line 259: patch the predecessor ring link (preserving its HEAD bit)
        match
          (match prev with
           | none => some t.buckets
           | some p =>
             match t.buckets[p]? with
             | none => none
             | some bp => setB t.buckets p { bp with meta := bp.meta &&& HEAD_BIT_MASK ||| h }) with
        | none => none
        | some bs1 =>
          -- lines 261-263: copy the tail payload into the erased slot, empty the tail
          match bs1[last]? with
          | none => none
          | some bl =>
            match bs1[e]? with
            | none => none
            | some be =>
              match setB bs1 e { be with key := bl.key, value := bl.value } with
              | none => none
              | some bs2 =>
                match bs2[last]? with
                | none => none
                | some bl2 =>
                  match setB bs2 last { bl2 with meta := EMPTY_BIT_MASK } with
                  | none => none
                  | some bs3 =>
                    let t2 : HashTable T := { t with buckets := bs3, count := t.count - 1 }
                    if should_shrink t2.count t2.capacity then shrink t2 else some t2
    else some t

/-- Number of buckets whose EMPTY bit is clear (spec: exactly `count` buckets). -/
def emptyClearCount (bs : List (Bucket T)) : Nat :=
  (bs.filter fun b => decide (b.meta &&& EMPTY_BIT_MASK = 0)).length

/-- The probe-position sequence of the claim about `emplace`'s probe loops:
starting from `start`, step `x` performs `i += x; i &= mask` (lib.rs lines
173-174 and 198-199). -/
def probePos (mask start : Nat) : Nat → Nat
  | 0 => start
  | x + 1 => (probePos mask start x + (x + 1)) &&& mask

/-- EMPTY-bit test used to state the probe-loop claim; `false` when the index
is out of bounds. -/
def isEmptyAt (bs : List (Bucket T)) (i : Nat) : Bool :=
  match bs[i]? with
  | none => false
  | some b => decide (b.meta &&& EMPTY_BIT_MASK ≠ 0)

/-- Positions visited by the remaining iterations of `probeLoop` from state
`(i, n)`: step 0 inspects `(i + n) &&& mask`, and so on. -/
def probeStep (mask i n : Nat) : Nat → Nat
  | 0 => (i + n) &&& mask
  | k + 1 => probeStep mask ((i + n) &&& mask) (n + 1) k

/-!
## Concrete executions

These definitions run the model on concrete operation sequences.  They are
used to settle the claims that quantify over reachable table states:
`scenarioS1` is reachable by five operations from `with_capacity 5` and is
the smallest state exhibiting the shrink truncation data loss, and
`scenarioT2` / `scenarioS3` extend it.  All keys were chosen so that their
hash values under the relevant shifts are as annotated.
-/

/-- Five operations: insert keys 868675384 (home 1 at shift 61),
2606026151 (home 3), 1 (home 0), 2 (home 0, probed to bucket 6), then
delete 868675384, which triggers a shrink from capacity 8 to 4.  The entry
with key 2 is homed at 0 but stored at index 6 and is truncated away. -/
def scenarioS1 : Option (HashTable Nat) := do
  let r1 ← insert (with_capacity 5) 868675384 11
  let r2 ← insert r1.2 2606026151 33
  let r3 ← insert r2.2 1 10
  let r4 ← insert r3.2 2 20
  delete r4.2 868675384

/-- Two more inserts on `scenarioS1`: key 3474701534 (home 2 at shift 62)
and key 6080727684 (home 3 at shift 62), the second of which triggers a
grow back to capacity 8; the revived bucket 6 is a default EMPTY bucket
while bucket 0 still links to it. -/
def scenarioT2 : Option (HashTable Nat) := do
  let t ← scenarioS1
  let r5 ← insert t 3474701534 44
  let r6 ← insert r5.2 6080727684 55
  some r6.2

/-- Sixteen operations reaching a state where key 1 is present (retrievable
by a clean walk) while bucket 0 still carries a dangling ring link to index
12, left by a shrink from capacity 16 and now beyond even the doubled
capacity 8: create with capacity 16, fill the triangular probe path of
bucket 0 (homes 1, 3, 6, 10, 15, 5 at shift 60), insert keys 1 and 2 homed
at 0 (key 2 probes to bucket 12), delete five fillers triggering shrinks to
capacity 8 and then 4, and insert key 3474701534 (home 2 at shift 62) to
raise the count to the grow trigger. -/
def scenarioS3a : Option (HashTable Nat) := do
  let r1 ← insert (with_capacity 9) 434337692 21
  let r2 ← insert r1.2 1303013076 23
  let r3 ← insert r2.2 2606026151 26
  let r4 ← insert r3.2 4343376917 30
  some r4.2

/-- Continuation of `scenarioS3a`: the remaining four inserts. -/
def scenarioS3b : Option (HashTable Nat) := do
  let t ← scenarioS3a
  let r5 ← insert t 6515065376 35
  let r6 ← insert r5.2 2171688459 25
  let r7 ← insert r6.2 1 10
  let r8 ← insert r7.2 2 20
  some r8.2

/-- Continuation of `scenarioS3b`: four deletes; the second triggers the
shrink from capacity 16 to 8 that strands the ring-0 member at index 12. -/
def scenarioS3c : Option (HashTable Nat) := do
  let t ← scenarioS3b
  let t9 ← delete t 6515065376
  let t10 ← delete t9 4343376917
  let t11 ← delete t10 2606026151
  let t12 ← delete t11 2171688459
  some t12

/-- Final segment: one more delete (triggering the shrink to capacity 4)
and one insert raising the count to the grow trigger. -/
def scenarioS3 : Option (HashTable Nat) := do
  let t ← scenarioS3c
  let t13 ← delete t 1303013076
  let r14 ← insert t13 3474701534 44
  some r14.2

/-- Concrete two-bucket array for the probe witness: bucket 0 occupied,
bucket 1 EMPTY. -/
def witnessBuckets : List (Bucket Nat) :=
  [{ meta := HEAD_BIT_MASK ||| 0, key := 5, value := 50 },
   { meta := EMPTY_BIT_MASK, key := 0, value := 0 }]

namespace PtrMap

/-- hash3.rs lines 41-49: a pointer-linked bucket; the `next` pointer is
modelled as an optional bucket index (`none` is the null pointer). -/
structure Bucket (T : Type) where
  next : Option Nat
  key : Nat
  value : T
  deriving DecidableEq

/-- hash3.rs lines 51-62: `Bucket::default()` has a null `next`, key 0 and
`T::default()`. -/
instance bucketInhabited (T : Type) [Inhabited T] : Inhabited (Bucket T) :=
  ⟨{ next := none, key := 0, value := default }⟩

/-- hash3.rs lines 64-74: the pointer-linked table (hash2.rs stores the same
fields in an allocation header). -/
structure HashTable (T : Type) where
  count : Nat
  shift : Nat
  mask : Nat
  buckets : List (Bucket T)
  deriving DecidableEq

variable {T : Type}

/-- hash3.rs lines 112-115 (hash2.rs lines 28-31): `hash` with the width-
selected `HASH_MULTIPLIER`. -/
def hash (t : HashTable T) (key : Nat) : Nat := hash64 key t.shift

/-- hash3.rs lines 132-152 (hash2.rs lines 107-135): `with_capacity`; the
shift is `capacity.leading_zeros() + 1 = USIZE_BITS - bits`. -/
def with_capacity [Inhabited T] (initial_capacity : Nat) : HashTable T :=
  let bits := max (min (bitLen initial_capacity) MAX_BITS) MIN_BITS
  let capacity := 2 ^ bits
  { count := 0
    shift := USIZE_BITS - bitLen capacity + 1
    mask := capacity - 1
    buckets := List.replicate capacity default }

/-- hash3.rs lines 167-175 (hash2.rs lines 154-162): the lookup loop:
compare the stored key first, then follow `next` and stop when it returns
to the origin.  A null `next` that is reached is dereferenced by the source
(undefined behaviour), modelled as `none`. -/
def getLoop (bs : List (Bucket T)) (key origin : Nat) : Option Nat → Nat → Option (Option T)
  | _, 0 => none
  | none, _ => none
  | some cur, fuel + 1 =>
    match bs[cur]? with
    | none => none
    | some b =>
      if b.key = key then some (some b.value)
      else if b.next = some origin then some none
      else getLoop bs key origin b.next fuel

/-- hash3.rs lines 161-177 (hash2.rs lines 148-164): `get`. -/
def get (t : HashTable T) (key : Nat) : Option (Option T) :=
  let h := hash t key
  getLoop t.buckets key h (some h) (t.buckets.length + 1)

end PtrMap

end RustyBuckets

/-!
## Supporting lemmas
-/

namespace RustyBuckets

theorem bitLenAux_spec :
    ∀ fuel n, n < 2 ^ fuel →
      n < 2 ^ bitLenAux fuel n ∧ ∀ m, n < 2 ^ m → bitLenAux fuel n ≤ m := by
  intro fuel
  induction fuel with
  | zero =>
    intro n hn
    have : n = 0 := by simpa using Nat.lt_one_iff.mp (by simpa using hn)
    subst this
    exact ⟨Nat.zero_lt_one, fun m _ => Nat.zero_le m⟩
  | succ f ih =>
    intro n hn
    by_cases h0 : n = 0
    · subst h0
      simp [bitLenAux]
    · have hdiv : n / 2 < 2 ^ f := by
        have h2 : (2 : Nat) ^ (f + 1) = 2 ^ f * 2 := by ring
        exact (Nat.div_lt_iff_lt_mul (by norm_num)).mpr (by omega)
      obtain ⟨hlt, hmin⟩ := ih (n / 2) hdiv
      have hval : bitLenAux (f + 1) n = bitLenAux f (n / 2) + 1 := by
        simp [bitLenAux, h0]
      constructor
      · rw [hval]
        have hsplit := Nat.div_add_mod n 2
        have hmod : n % 2 < 2 := Nat.mod_lt n (by norm_num)
        have hpow : (2 : Nat) ^ (bitLenAux f (n / 2) + 1) = 2 ^ bitLenAux f (n / 2) * 2 :=
          pow_succ 2 (bitLenAux f (n / 2))
        omega
      · intro m hm
        rw [hval]
        have hm0 : m ≠ 0 := by
          intro h
          subst h
          simp at hm
          omega
        have hdm : n / 2 < 2 ^ (m - 1) := by
          have h2 : (2 : Nat) ^ m = 2 ^ (m - 1) * 2 := by
            have heq : m - 1 + 1 = m := Nat.succ_pred_eq_of_pos (Nat.pos_of_ne_zero hm0)
            rw [← heq]
            exact pow_succ 2 (m - 1)
          exact (Nat.div_lt_iff_lt_mul (by norm_num)).mpr (by omega)
        have := hmin (m - 1) hdm
        omega

theorem bitLen_lt (n : Nat) (hn : n < U64_MOD) : n < 2 ^ bitLen n :=
  (bitLenAux_spec USIZE_BITS n (by simpa [U64_MOD, USIZE_BITS] using hn)).1

theorem bitLen_min (n m : Nat) (hn : n < U64_MOD) (hm : n < 2 ^ m) : bitLen n ≤ m :=
  (bitLenAux_spec USIZE_BITS n (by simpa [U64_MOD, USIZE_BITS] using hn)).2 m hm

theorem bitLen_pos (n : Nat) (hn : 0 < n) (hn2 : n < U64_MOD) : 1 ≤ bitLen n := by
  by_contra h
  have hz : bitLen n = 0 := by omega
  have := bitLen_lt n hn2
  rw [hz] at this
  simp at this
  omega

end RustyBuckets

namespace RustyBuckets

theorem hash_shift_pred (key s : Nat) (hs : 0 < s) :
    hash key (s - 1) = 2 * hash key s ∨ hash key (s - 1) = 2 * hash key s + 1 := by
  have hs1 : s - 1 + 1 = s := Nat.succ_pred_eq_of_pos hs
  have hdiv : key * 2654435769 % U64_MOD / 2 ^ (s - 1) / 2
      = key * 2654435769 % U64_MOD / 2 ^ s := by
    rw [Nat.div_div_eq_div_mul, ← pow_succ, hs1]
  have hsplit := Nat.div_add_mod (key * 2654435769 % U64_MOD / 2 ^ (s - 1)) 2
  have hmod := Nat.mod_two_eq_zero_or_one (key * 2654435769 % U64_MOD / 2 ^ (s - 1))
  unfold hash
  omega

variable {T : Type}

theorem getLoop_none_imp_deleteLoop (bs : List (Bucket T)) (key h : Nat) :
    ∀ fuel cur n erase prev, getLoop bs key h cur n fuel = some none →
      ∃ l p, deleteLoop bs key h cur n erase prev fuel = some (erase, l, p) := by
  intro fuel
  induction fuel with
  | zero =>
    intro cur n erase prev hg
    simp [getLoop] at hg
  | succ f ih =>
    intro cur n erase prev hg
    cases hcur : bs[cur]? with
    | none => simp [getLoop, hcur] at hg
    | some b =>
      by_cases hkey : b.key = key
      · simp [getLoop, hcur, hkey] at hg
      · by_cases hn : n = h
        · refine ⟨cur, prev, ?_⟩
          simp [deleteLoop, hcur, hkey, hn]
        · cases hnext : bs[n]? with
          | none => simp [getLoop, hcur, hkey, hn, hnext] at hg
          | some b2 =>
            have hg2 : getLoop bs key h n b2.meta f = some none := by
              simpa [getLoop, hcur, hkey, hn, hnext] using hg
            obtain ⟨l, p, hd⟩ := ih n b2.meta erase (some cur) hg2
            refine ⟨l, p, ?_⟩
            simp [deleteLoop, hcur, hkey, hn, hnext, hd]

end RustyBuckets

namespace RustyBuckets

variable {T : Type}

theorem delete_of_get_none (t : HashTable T) (key : Nat) (habsent : get t key = some none) :
    delete t key = some t := by
  unfold get at habsent
  unfold delete
  dsimp only at habsent ⊢
  cases hb : t.buckets[hash key t.shift]? with
  | none => rw [hb] at habsent; simp at habsent
  | some b0 =>
    rw [hb] at habsent
    dsimp only at habsent ⊢
    by_cases hhead : b0.meta &&& HEAD_BIT_MASK ≠ 0
    · rw [if_pos hhead] at habsent
      obtain ⟨l, p, hd⟩ := getLoop_none_imp_deleteLoop t.buckets key (hash key t.shift)
        (t.buckets.length + 1) (hash key t.shift) (b0.meta ^^^ HEAD_BIT_MASK) none none habsent
      rw [if_pos hhead, hd]
    · rw [if_neg hhead]

end RustyBuckets

namespace RustyBuckets

theorem ptr_getLoop_fresh (T : Type) [Inhabited T] (n : Nat) (hn : 0 < n) :
    PtrMap.getLoop (List.replicate n (default : PtrMap.Bucket T)) 0 0 (some 0) (n + 1)
      = some (some (default : T)) := by
  have hget : (List.replicate n (default : PtrMap.Bucket T))[0]? = some default := by
    rw [List.getElem?_replicate]
    simp [hn]
  have hkey : (default : PtrMap.Bucket T).key = 0 := rfl
  simp [PtrMap.getLoop, hget, hkey]
  rfl

end RustyBuckets

/-!
## Claim theorems
-/

namespace RustyBuckets

/-- C4: the claim states that `hash(key)` multiplies the key (mod `2 ^ 64`)
by the Fibonacci constant appropriate to the 64-bit platform word
(11400714819323198485 or 11400714819323198486) before shifting.  The code of
lib.rs multiplies by 2654435769, the 32-bit constant, contradicting its own
doc comment (and the width-selected `HASH_MULTIPLIER` of hash3.rs/hash2.rs):
at key 1 and shift 61 the code yields bucket 0 while the claimed formula
yields bucket 4 with either 64-bit constant. -/
theorem C4_hash_uses_32bit_constant :
    hash 1 61 = 0 ∧ hash64 1 61 = 4 ∧
    1 * 11400714819323198485 % U64_MOD / 2 ^ 61 = 4 ∧
    hash 1 61 ≠ hash64 1 61 := by decide

/-- C5 counterexample: the claim states that when grow decreases the shift
by one, a key with old home `h` moves to `h` or `h + old_capacity`.  For key
`2 ^ 32` at old shift 62 (old capacity 4) the old home is 2 but the new home
is 4, which is neither 2 nor 2 + 4: under a top-bits (shift) hash the new
home is `2 h` or `2 h + 1`, not `h` or `h + old_capacity`. -/
theorem C5_counterexample_new_home :
    hash 4294967296 62 = 2 ∧ hash 4294967296 61 = 4 ∧
    ¬(hash 4294967296 61 = 2 ∨ hash 4294967296 61 = 2 + 4) := by decide

/-- C5 (amended): during grow the shift decreases by one and every key with
old home `h = hash key s` has new home `2 h` (the uncovered product bit is 0)
or `2 h + 1` (it is 1). -/
theorem C5_grow_new_home_doubles (key s : Nat) (hs : 0 < s) :
    hash key (s - 1) = 2 * hash key s ∨ hash key (s - 1) = 2 * hash key s + 1 :=
  hash_shift_pred key s hs

/-- Witness for C5 at key `2 ^ 32`, shift 62. -/
theorem C5_grow_new_home_doubles_witness :
    0 < 62 ∧ (hash 4294967296 (62 - 1) = 2 * hash 4294967296 62 ∨
      hash 4294967296 (62 - 1) = 2 * hash 4294967296 62 + 1) :=
  ⟨by decide, C5_grow_new_home_doubles 4294967296 62 (by decide)⟩

/-- C7 counterexample: the claim states `create(c)` rounds `c` up to the
next power of two, so a power-of-two `c` in range yields capacity `c`.  The
code computes `1 << bit_length(c)`, so `with_capacity 4` yields capacity 8,
not 4. -/
theorem C7_counterexample_capacity_doubled :
    (with_capacity 4 : HashTable Nat).capacity = 8 ∧ (8 : Nat) ≠ 4 := by decide

/-- C7 (amended): `with_capacity c` yields capacity
`2 ^ clamp(bit_length c, MIN_BITS, MAX_BITS)`, the least power of two
strictly greater than `c` (clamped), where
`MAX_BITS = 64 - leading_zeros(usize::MAX / size_of::<Bucket<T>>)` — 60 for
`T = usize`, not `W - 2 = 62`; `with_capacity 0` yields `MIN_CAPACITY = 2`,
and for `0 < c < MAX_CAPACITY` the capacity lies in `(c, 2 c]`. -/
theorem C7_with_capacity_formula (c : Nat) (hc : c < U64_MOD) :
    (with_capacity c : HashTable Nat).capacity
        = 2 ^ max (min (bitLen c) MAX_BITS) MIN_BITS ∧
    (with_capacity 0 : HashTable Nat).capacity = MIN_CAPACITY ∧
    (0 < c → c < MAX_CAPACITY →
      c < (with_capacity c : HashTable Nat).capacity ∧
      (with_capacity c : HashTable Nat).capacity ≤ 2 * c) := by
  have hcap : (with_capacity c : HashTable Nat).capacity
      = 2 ^ max (min (bitLen c) MAX_BITS) MIN_BITS := by
    simp [with_capacity, HashTable.capacity]
  refine ⟨hcap, by decide, fun hpos hmax => ?h3⟩
  have hMB : MAX_BITS = 60 := by decide
  have hMC : MAX_CAPACITY = 2 ^ 60 := by decide
  have hlt := bitLen_lt c hc
  have hle : bitLen c ≤ MAX_BITS := by
    rw [hMB]
    exact bitLen_min c 60 hc (hMC ▸ hmax)
  have hpos1 : 1 ≤ bitLen c := bitLen_pos c hpos hc
  have hMIN : MIN_BITS = 1 := rfl
  have hclamp : max (min (bitLen c) MAX_BITS) MIN_BITS = bitLen c := by omega
  constructor
  · rw [hcap, hclamp]
    exact hlt
  · rw [hcap, hclamp]
    have hble : 2 ^ (bitLen c - 1) ≤ c := by
      by_contra hlt2
      push_neg at hlt2
      have := bitLen_min c (bitLen c - 1) hc hlt2
      omega
    have hsucc : bitLen c - 1 + 1 = bitLen c := Nat.succ_pred_eq_of_pos hpos1
    have hps : (2 : Nat) ^ bitLen c = 2 ^ (bitLen c - 1) * 2 := by
      rw [← hsucc]
      exact pow_succ 2 (bitLen c - 1)
    omega

/-- Witness for C7 at requested capacity 5 (capacity becomes 8 ∈ (5, 10]). -/
theorem C7_with_capacity_formula_witness :
    (with_capacity 5 : HashTable Nat).capacity
        = 2 ^ max (min (bitLen 5) MAX_BITS) MIN_BITS ∧
    5 < (with_capacity 5 : HashTable Nat).capacity ∧
    (with_capacity 5 : HashTable Nat).capacity ≤ 2 * 5 :=
  ⟨(C7_with_capacity_formula 5 (by decide)).1,
   (C7_with_capacity_formula 5 (by decide)).2.2 (by decide) (by decide)⟩

/-- C2: the claim states that after a sequence of inserts of distinct keys
followed by deletes, every key inserted and not deleted is still returned by
`get` — in particular that entries homed at index 0 survive a shrink even
though shrink rehashes only indices `1..old_capacity`.  Refuted: in
`scenarioS1` (four inserts of distinct keys, then one delete that triggers a
shrink from capacity 8 to 4), key 2 was inserted with value 20, never
deleted, is homed at index 0 but stored at index 6; shrink rehashes only
HEAD buckets at indices 1..8, so the interior member at index 6 is truncated
away and `get 2` follows the stale ring link 6 out of bounds (`none`, an
out-of-bounds read in the Rust source) instead of returning `Some 20`. -/
theorem C2_shrink_loses_ring_zero_entry :
    scenarioS1.isSome = true ∧
    (scenarioS1.bind fun t => get t 2) = none ∧
    (none : Option (Option Nat)) ≠ some (some 20) := by decide

/-- C3: the claim states that in every reachable table state the number of
buckets with the EMPTY bit clear equals `count`.  Refuted: `scenarioS1` is
reachable by five operations, has `count = 3`, but only 2 buckets with the
EMPTY bit clear — the shrink truncated the live entry stored at index 6
without decrementing `count`. -/
theorem C3_count_mismatch_after_shrink :
    (scenarioS1.map fun t => (t.count, emptyClearCount t.buckets)) = some (3, 2) ∧
    (3 : Nat) ≠ 2 := by decide

/-- C1: the claim states that for every reachable table state, inserting
`(k, v)` and then reading `k` returns `Some v`.  Refuted: `scenarioT2` is a
reachable state (seven operations, including a shrink that strands a
dangling ring link at bucket 0 and a grow that re-initializes the linked
bucket 6 to an EMPTY default); inserting key 3 (homed at 0) walks the ring
`0 → 6` and then follows bucket 6's meta word `2 ^ 62` as a link, a wild
out-of-bounds access (`none`), so the subsequent `get 3` cannot return
`Some 99`. -/
theorem C1_insert_then_get_fails :
    scenarioT2.isSome = true ∧
    (scenarioT2.bind fun t => (insert t 3 99).bind fun r => get r.2 3) = none ∧
    (none : Option (Option Nat)) ≠ some (some 99) := by decide

/-- C6: the claim states that for every reachable state in which key `k` is
present with value `v1`, `insert (k, v2)` returns `Some v1`, leaves
`get k = Some v2` and leaves `count` unchanged.  Refuted: in `scenarioS3`
(sixteen operations, two shrinks leaving bucket 0 with a dangling ring link
to index 12), key 1 is present with value 10 and retrievable by a clean
walk, but `insert 1 999` first triggers a grow whose `rehash_zero` follows
the dangling link 12 beyond the re-grown capacity 8 — an out-of-bounds
access (`none`), so the insert neither returns `Some 10` nor leaves the
table readable. -/
theorem C6_overwrite_insert_out_of_bounds :
    (scenarioS3.bind fun t => get t 1) = some (some 10) ∧
    (scenarioS3.bind fun t => insert t 1 999) = none := by decide

/-- C9 counterexample: the claim states that deleting an absent key leaves
every reachable table unchanged.  Refuted: in the reachable state
`scenarioS1`, key 3 was never inserted, yet `delete 3` walks the ring at
its home bucket 0 through the dangling link 6 (≥ capacity 4) — an
out-of-bounds read, not a no-op returning the unchanged table. -/
theorem C9_counterexample_delete_absent_oob :
    scenarioS1.isSome = true ∧
    (scenarioS1.bind fun t => delete t 3) = none ∧
    (scenarioS1.bind fun t => delete t 3) ≠ scenarioS1 := by decide

/-- C9 (amended): on every table state on which the lookup of `key`
terminates cleanly with `None` (no out-of-bounds access — in particular
every state not corrupted by the shrink truncation bug), `delete key`
returns the table entirely unchanged: same `count`, `shift`, `mask` and
buckets. -/
theorem C9_delete_absent_clean_noop (T : Type) (t : HashTable T) (key : Nat)
    (habsent : get t key = some none) : delete t key = some t :=
  delete_of_get_none t key habsent

/-- Witness for C9: deleting the absent key 5 from a fresh two-bucket table. -/
theorem C9_delete_absent_clean_noop_witness :
    get (with_capacity 0 : HashTable Nat) 5 = some none ∧
    delete (with_capacity 0 : HashTable Nat) 5 = some (with_capacity 0 : HashTable Nat) :=
  ⟨by decide, C9_delete_absent_clean_noop Nat (with_capacity 0) 5 (by decide)⟩

/-- C10: the claim states that in the pointer-linked variants
(hash3.rs/hash2.rs), `get 0` on a table whose home bucket for key 0 is empty
— for example any freshly created table — returns `Some` of the default
value rather than `None`, because empty buckets are initialized with key 0
and a null `next` pointer and `get` compares the stored key before checking
occupancy.  Confirmed for every requested capacity. -/
theorem C10_get_zero_returns_default (T : Type) [Inhabited T] (c : Nat) :
    PtrMap.get (PtrMap.with_capacity c : PtrMap.HashTable T) 0
      = some (some (default : T)) ∧
    some (some (default : T)) ≠ (some none : Option (Option T)) := by
  constructor
  · unfold PtrMap.get PtrMap.with_capacity PtrMap.hash
    dsimp only
    have h0 : ∀ s, hash64 0 s = 0 := fun s => by simp [hash64]
    rw [h0, List.length_replicate]
    exact ptr_getLoop_fresh T _ (pow_pos (by norm_num) _)
  · simp

end RustyBuckets

namespace RustyBuckets

variable {T : Type}

theorem tri_succ (x : Nat) : (x + 1) * (x + 1 + 1) / 2 = x * (x + 1) / 2 + (x + 1) := by
  have h : 2 ∣ x * (x + 1) := (Nat.even_mul_succ_self x).two_dvd
  have h2 : (x + 1) * (x + 1 + 1) = x * (x + 1) + 2 * (x + 1) := by ring
  omega

theorem probePos_eq (b start : Nat) (hs : start < 2 ^ b) :
    ∀ x, probePos (2 ^ b - 1) start x = (start + x * (x + 1) / 2) % 2 ^ b := by
  intro x
  induction x with
  | zero => simp [probePos, Nat.mod_eq_of_lt hs]
  | succ n ihn =>
    have step : probePos (2 ^ b - 1) start (n + 1)
        = (probePos (2 ^ b - 1) start n + (n + 1)) &&& (2 ^ b - 1) := rfl
    rw [step, ihn, Nat.and_pow_two_sub_one_eq_mod, Nat.mod_add_mod]
    have harg : start + n * (n + 1) / 2 + (n + 1) = start + (n + 1) * (n + 1 + 1) / 2 := by
      have := tri_succ n
      omega
    rw [harg]

theorem tri_mod_inj (b i j : Nat) (hij : i < j) (hj : j < 2 ^ b) :
    j * (j + 1) / 2 % 2 ^ b ≠ i * (i + 1) / 2 % 2 ^ b := by
  intro heq
  have hji : i * (i + 1) / 2 ≤ j * (j + 1) / 2 :=
    Nat.div_le_div_right (Nat.mul_le_mul (le_of_lt hij) (by omega))
  have hdvd : 2 ^ b ∣ j * (j + 1) / 2 - i * (i + 1) / 2 :=
    (Nat.modEq_iff_dvd' hji).mp heq.symm
  obtain ⟨q, hq⟩ := hdvd
  have h2A : j * (j + 1) / 2 * 2 = j * (j + 1) :=
    Nat.div_mul_cancel (Nat.even_mul_succ_self j).two_dvd
  have h2B : i * (i + 1) / 2 * 2 = i * (i + 1) :=
    Nat.div_mul_cancel (Nat.even_mul_succ_self i).two_dvd
  have hident : 2 * (j * (j + 1) / 2 - i * (i + 1) / 2) = (j - i) * (i + j + 1) := by
    zify [hji, hij.le]
    nlinarith [h2A, h2B]
  have hdvd2 : 2 ^ (b + 1) ∣ (j - i) * (i + j + 1) := by
    refine ⟨q, ?_⟩
    rw [← hident, hq]
    ring
  have hpow : (2 : Nat) ^ (b + 1) = 2 ^ b * 2 := pow_succ 2 b
  rcases Nat.even_or_odd (j - i) with he | ho
  · have hodd : ¬ 2 ∣ (i + j + 1) := by
      rcases he with ⟨m, hm⟩
      intro ⟨k, hk⟩
      omega
    have hcop : Nat.Coprime (2 ^ (b + 1)) (i + j + 1) :=
      Nat.Coprime.pow_left _ ((Nat.prime_two.coprime_iff_not_dvd).mpr hodd)
    have hdvd3 : 2 ^ (b + 1) ∣ (j - i) :=
      hcop.dvd_of_dvd_mul_left (by rwa [mul_comm] at hdvd2)
    have hle2 : 2 ^ (b + 1) ≤ j - i := Nat.le_of_dvd (by omega) hdvd3
    omega
  · have hodd : ¬ 2 ∣ (j - i) := by
      rcases ho with ⟨m, hm⟩
      intro ⟨k, hk⟩
      omega
    have hcop : Nat.Coprime (2 ^ (b + 1)) (j - i) :=
      Nat.Coprime.pow_left _ ((Nat.prime_two.coprime_iff_not_dvd).mpr hodd)
    have hdvd3 : 2 ^ (b + 1) ∣ (i + j + 1) := hcop.dvd_of_dvd_mul_left hdvd2
    have hle2 : 2 ^ (b + 1) ≤ i + j + 1 := Nat.le_of_dvd (by omega) hdvd3
    omega

theorem tri_mod_surj (b r : Nat) (hr : r < 2 ^ b) :
    ∃ x, x < 2 ^ b ∧ x * (x + 1) / 2 % 2 ^ b = r := by
  have hpos : 0 < 2 ^ b := pow_pos (by norm_num) b
  let f : Fin (2 ^ b) → Fin (2 ^ b) := fun x => ⟨x.1 * (x.1 + 1) / 2 % 2 ^ b, Nat.mod_lt _ hpos⟩
  have hinj : Function.Injective f := by
    intro x y hxy
    by_contra hne
    have hval : x.1 * (x.1 + 1) / 2 % 2 ^ b = y.1 * (y.1 + 1) / 2 % 2 ^ b :=
      congrArg Fin.val hxy
    rcases Nat.lt_or_ge x.1 y.1 with h | h
    · exact tri_mod_inj b x.1 y.1 h y.2 hval.symm
    · have hlt : y.1 < x.1 := by
        rcases Nat.lt_or_ge y.1 x.1 with h2 | h2
        · exact h2
        · exact absurd (Fin.ext (by omega)) hne
      exact tri_mod_inj b y.1 x.1 hlt x.2 hval
  have hsurj := Finite.injective_iff_surjective.mp hinj
  obtain ⟨x, hx⟩ := hsurj ⟨r, hr⟩
  exact ⟨x.1, x.2, congrArg Fin.val hx⟩

end RustyBuckets

namespace RustyBuckets

variable {T : Type}

theorem probePos_cover_ne (b start j : Nat) (hs : start < 2 ^ b) (hj : j < 2 ^ b)
    (hne : j ≠ start) :
    ∃ x, 0 < x ∧ x < 2 ^ b ∧ probePos (2 ^ b - 1) start x = j := by
  have hpos : 0 < 2 ^ b := pow_pos (by norm_num) b
  obtain ⟨x, hxlt, hxr⟩ := tri_mod_surj b ((j + 2 ^ b - start) % 2 ^ b) (Nat.mod_lt _ hpos)
  have hmain : (start + x * (x + 1) / 2) % 2 ^ b = j := by
    have h1 : (start + x * (x + 1) / 2) % 2 ^ b
        = (start + (j + 2 ^ b - start)) % 2 ^ b := by
      rw [Nat.add_mod, hxr, ← Nat.add_mod]
    have h2 : start + (j + 2 ^ b - start) = j + 2 ^ b := by omega
    rw [h1, h2, Nat.add_mod_right, Nat.mod_eq_of_lt hj]
  have hx0 : x ≠ 0 := by
    intro h0
    subst h0
    simp at hmain
    rw [Nat.mod_eq_of_lt hs] at hmain
    exact hne hmain.symm
  exact ⟨x, Nat.pos_of_ne_zero hx0, hxlt, by rw [probePos_eq b start hs]; exact hmain⟩

theorem probePos_cover_self (b start : Nat) (hs : start < 2 ^ b) :
    probePos (2 ^ b - 1) start (2 ^ (b + 1) - 1) = start := by
  rw [probePos_eq b start hs]
  have hpow : (2 : Nat) ^ (b + 1) = 2 ^ b * 2 := pow_succ 2 b
  have hpos : 0 < 2 ^ b := pow_pos (by norm_num) b
  have hx1 : 2 ^ (b + 1) - 1 + 1 = 2 ^ (b + 1) := by omega
  rw [hx1]
  have h2 : (2 ^ (b + 1) - 1) * 2 ^ (b + 1) / 2 = (2 ^ (b + 1) - 1) * 2 ^ b := by
    rw [hpow, ← mul_assoc]
    exact Nat.mul_div_cancel _ (by norm_num)
  rw [h2, Nat.add_mul_mod_self_right, Nat.mod_eq_of_lt hs]

theorem probeStep_probePos (mask start : Nat) :
    ∀ k x, probeStep mask (probePos mask start x) (x + 1) k = probePos mask start (x + 1 + k) := by
  intro k
  induction k with
  | zero =>
    intro x
    simp [probeStep, probePos]
  | succ k ih =>
    intro x
    have h1 : probeStep mask (probePos mask start x) (x + 1) (k + 1)
        = probeStep mask (probePos mask start (x + 1)) (x + 1 + 1) k := rfl
    rw [h1, ih (x + 1)]
    congr 1
    omega

theorem probeLoop_finds (bs : List (Bucket T)) (b : Nat) (hlen : bs.length = 2 ^ b) :
    ∀ fuel i n, (∃ k, k < fuel ∧ isEmptyAt bs (probeStep (2 ^ b - 1) i n k) = true) →
      ∃ e, probeLoop bs (2 ^ b - 1) i n fuel = some (some e) ∧ isEmptyAt bs e = true := by
  intro fuel
  induction fuel with
  | zero =>
    rintro i n ⟨k, hk, _⟩
    omega
  | succ f ih =>
    rintro i n ⟨k, hk, hke⟩
    have hi2 : (i + n) % 2 ^ b < bs.length := by
      rw [hlen]
      exact Nat.mod_lt _ (pow_pos (by norm_num) b)
    obtain ⟨b2, hb2⟩ : ∃ b2, bs[(i + n) % 2 ^ b]? = some b2 :=
      ⟨_, List.getElem?_eq_getElem hi2⟩
    by_cases hemp : b2.meta &&& EMPTY_BIT_MASK ≠ 0
    · refine ⟨(i + n) % 2 ^ b, ?_, ?_⟩
      · simp [probeLoop, hb2, hemp]
      · simp [isEmptyAt, hb2, hemp]
    · have hk0 : k ≠ 0 := by
        intro h0
        subst h0
        simp [probeStep, isEmptyAt, hb2] at hke
        exact hemp hke
      obtain ⟨k2, rfl⟩ : ∃ k2, k = k2 + 1 := ⟨k - 1, by omega⟩
      have hke2 : isEmptyAt bs (probeStep (2 ^ b - 1) ((i + n) % 2 ^ b) (n + 1) k2)
          = true := by
        simpa [probeStep] using hke
      obtain ⟨e, he1, he2⟩ := ih ((i + n) % 2 ^ b) (n + 1) ⟨k2, by omega, hke2⟩
      refine ⟨e, ?_, he2⟩
      simp [probeLoop, hb2, hemp, he1]

end RustyBuckets

namespace RustyBuckets

/-- C8: the claim states that for every power-of-two capacity and start
index, the triangular probe sequence `i := (i + x) & mask` for
`x = 1, 2, 3, …` visits every array index, and that whenever at least one
bucket is EMPTY the probe loops in `emplace` (which start from a chain
bucket, never itself EMPTY) find an EMPTY bucket, so their exhaustion
fall-through is unreachable.  Both parts hold: every index `j < 2 ^ b` is
`probePos (2 ^ b - 1) start x` for some `x` in `[1, 2 ^ (b + 1))`, and on
any bucket array of length `2 ^ b` whose start bucket is not EMPTY but
which has some EMPTY bucket, `probeLoop` — the loop of lib.rs lines
171-186/196-216 with its `capacity - 1` iterations — returns an EMPTY
index. -/
theorem C8_probe_covers_and_finds_empty (b start : Nat) (hstart : start < 2 ^ b) :
    (∀ j, j < 2 ^ b → ∃ x, 0 < x ∧ x < 2 ^ (b + 1) ∧ probePos (2 ^ b - 1) start x = j) ∧
    (∀ bs : List (Bucket Nat), bs.length = 2 ^ b → isEmptyAt bs start = false →
      (∃ j, j < 2 ^ b ∧ isEmptyAt bs j = true) →
      ∃ e, probeLoop bs (2 ^ b - 1) start 1 (bs.length - 1) = some (some e) ∧
        isEmptyAt bs e = true) := by
  have hpow : (2 : Nat) ^ (b + 1) = 2 ^ b * 2 := pow_succ 2 b
  have hpos : 0 < 2 ^ b := pow_pos (by norm_num) b
  constructor
  · intro j hj
    by_cases hne : j = start
    · subst hne
      exact ⟨2 ^ (b + 1) - 1, by omega, by omega, probePos_cover_self b j hstart⟩
    · obtain ⟨x, hx1, hx2, hx3⟩ := probePos_cover_ne b start j hstart hj hne
      exact ⟨x, hx1, by omega, hx3⟩
  · rintro bs hlen hsne ⟨j, hj, hje⟩
    have hne : j ≠ start := by
      intro h
      subst h
      rw [hje] at hsne
      exact absurd hsne (by simp)
    obtain ⟨x, hx1, hx2, hx3⟩ := probePos_cover_ne b start j hstart hj hne
    have hstep : probeStep (2 ^ b - 1) start 1 (x - 1) = probePos (2 ^ b - 1) start x := by
      have h0 := probeStep_probePos (2 ^ b - 1) start (x - 1) 0
      have hx : 0 + 1 + (x - 1) = x := by omega
      rw [hx] at h0
      simpa [probePos] using h0
    refine probeLoop_finds bs b hlen (bs.length - 1) start 1 ⟨x - 1, ?_, ?_⟩
    · rw [hlen]
      omega
    · rw [hstep, hx3]
      exact hje

/-- Witness for C8 at capacity 2, start 0, with bucket 1 EMPTY. -/
theorem C8_probe_covers_and_finds_empty_witness :
    (∃ x, 0 < x ∧ x < 2 ^ (1 + 1) ∧ probePos (2 ^ 1 - 1) 0 x = 1) ∧
    (∃ e, probeLoop witnessBuckets (2 ^ 1 - 1) 0 1 (witnessBuckets.length - 1)
        = some (some e) ∧ isEmptyAt witnessBuckets e = true) :=
  ⟨(C8_probe_covers_and_finds_empty 1 0 (by decide)).1 1 (by decide),
   (C8_probe_covers_and_finds_empty 1 0 (by decide)).2 witnessBuckets (by decide) (by decide)
     ⟨1, by decide, by decide⟩⟩

end RustyBuckets
